import Mathlib

/-!
Verification of the photodaocker selection-and-compositing pipeline.

Shallow embedding of the core algorithms of `render_daily_photo.py`
(date bucketing, flat and orientation-balanced photo selection, the
compositor geometry, location formatting) and of the 4-color
Floyd-Steinberg error-diffusion quantizer embedded in `server.py`
(`applyFourColorDither`).

Numeric conventions: Python/JS real arithmetic is modelled over `ℚ`
(all constants appearing in the algorithms are exactly representable);
Python `int()` truncation of non-negative reals is `Int.toNat` of the
floor; Python `//` floor division is `Int.fdiv`.  Randomness
(`random.sample`) and the filesystem orientation probe
(`is_landscape`, which opens the image file) are modelled as explicit
function parameters, constrained only by hypotheses that the real
implementations satisfy.
-/

namespace PhotoDaocker

/-! # Definitions -/

/-! ## Dates: `md_to_day_of_year` / `day_of_year_to_md` -/

/-- Cumulative days before each month in a non-leap year, indexed by
month number (entry 0 unused), as in `md_to_day_of_year`. -/
def days_before : List ℕ := [0, 0, 31, 59, 90, 120, 151, 181, 212, 243, 273, 304, 334]

/-- Day counts of the twelve months of a non-leap year. -/
def month_days : List ℕ := [31, 28, 31, 30, 31, 30, 31, 31, 30, 31, 30, 31]

/-- Two-digit zero-padded decimal rendering, as in Python `f"{n:02d}"`
for non-negative `n` (numbers of three or more digits print fully). -/
def pad2 (n : ℕ) : String := if n < 10 then "0" ++ toString n else toString n

/-- The `"MM-DD"` string `f"{m:02d}-{d:02d}"`. -/
def mdString (m d : ℕ) : String := pad2 m ++ "-" ++ pad2 d

/-- Split a character list at each `'-'`, as Python `str.split("-")`. -/
def splitDash : List Char → List (List Char)
  | [] => [[]]
  | c :: rest =>
    let r := splitDash rest
    if c = '-' then [] :: r
    else
      match r with
      | [] => [[c]]
      | p :: tl => (c :: p) :: tl

/-- Parse a non-empty all-digit character list as a natural number;
models Python `int()` on the digit strings produced by date formatting
(other inputs `int()` accepts, e.g. signs, are irrelevant here and
yield `none`). -/
def parseNatDigits (cs : List Char) : Option ℕ :=
  if cs = [] then none
  else cs.foldl (fun acc c =>
    match acc with
    | none => none
    | some n => if c.isDigit then some (n * 10 + (c.toNat - 48)) else none) (some 0)

/-- `m, d = map(int, md.split("-"))`: succeeds exactly when the split
has two components and both parse. -/
def parseMD (md : String) : Option (ℕ × ℕ) :=
  match splitDash md.data with
  | [a, b] =>
    match parseNatDigits a, parseNatDigits b with
    | some m, some d => some (m, d)
    | _, _ => none
  | _ => none

/-- `md_to_day_of_year`: `'MM-DD'` to day of a non-leap year (1–365);
`none` on parse failure or month out of range. -/
def md_to_day_of_year (md : String) : Option ℕ :=
  match parseMD md with
  | none => none
  | some (m, d) => if m < 1 ∨ 12 < m then none else some (days_before.getD m 0 + d)

/-- Scan the month lengths to locate the month/day of a day-of-year. -/
def doyToMonthDay : ℕ → ℕ → List ℕ → ℕ × ℕ
  | m, d, [] => (m, d)
  | m, d, len :: rest => if d ≤ len then (m, d) else doyToMonthDay (m + 1) (d - len) rest

/-- `day_of_year_to_md`: models `dt.date(2001,1,1) + timedelta(days=day-1)`
(year 2001 is not a leap year) followed by `f"{month:02d}-{day:02d}"`;
agrees with the Python original on the range `1 ≤ day ≤ 365` on which
the selection engine calls it. -/
def day_of_year_to_md (day : ℕ) : String :=
  let p := doyToMonthDay 1 day month_days
  mdString p.1 p.2

/-- A pair is a valid month-day of a non-leap calendar year when both
the month and the day are in range. -/
def validMD (m d : ℕ) : Prop :=
  1 ≤ m ∧ m ≤ 12 ∧ 1 ≤ d ∧ d ≤ month_days.getD (m - 1) 0

instance (m d : ℕ) : Decidable (validMD m d) := by
  unfold validMD; infer_instance

/-! ## Photo records and the selection engine -/

/-- Optional coordinate field as loaded from the database: absent
(`None`), present but non-numeric (`float()` raises), or numeric. -/
inductive CoordVal
  | absent
  | malformed
  | num (q : ℚ)
deriving DecidableEq, Repr

/-- One photo record as built by `load_sim_rows` (the dict fields that
the selection engine and the formatters read). -/
structure PhotoRecord where
  path : String
  date : String
  md : String
  side : String
  memory : ℚ
  lat : CoordVal
  lon : CoordVal
  city : String
deriving DecidableEq, Repr

/-- Stable insert for descending-by-`memory` order: the new element
goes after every already-placed element of greater or equal score. -/
def insertByMemoryDesc (r : PhotoRecord) : List PhotoRecord → List PhotoRecord
  | [] => [r]
  | x :: xs => if r.memory ≤ x.memory then x :: insertByMemoryDesc r xs else r :: x :: xs

/-- `arr.sort(key=..., reverse=True)` on `memory`: Python's sort is
stable, so it is extensionally the unique stable descending sort,
realized here as a stable insertion sort. -/
def sortByMemoryDesc (l : List PhotoRecord) : List PhotoRecord :=
  l.foldl (fun acc r => insertByMemoryDesc r acc) []

/-- The `by_md` bucket of one month-day: grouping preserves input
order, then each bucket is sorted by memory descending; a missing key
yields `[]` (`by_md.get(md, [])`). -/
def bucketFor (items : List PhotoRecord) (md : String) : List PhotoRecord :=
  sortByMemoryDesc (items.filter (fun r => r.md = md))

/-- The two `RuntimeError`s the selection entry points can raise. -/
inductive SelError
  | emptyInput
  | unparsableDate
deriving DecidableEq, Repr

/-- The diagnostics dict returned by `choose_photos_for_today`. -/
structure FlatInfo where
  target_md : String
  used_md : String
  day_offset : Option ℤ
  candidate_count : ℕ
  total_count_md : ℕ
  threshold : ℚ
  fallback_global_max : Bool
deriving DecidableEq, Repr

/-- The padding loop of flat mode: extend `chosen` with further bucket
entries not already chosen until `count` is reached (`extra in
chosen_list` is dict equality, here record equality). -/
def padFromBucket (count : ℕ) : List PhotoRecord → List PhotoRecord → List PhotoRecord
  | [], chosen => chosen
  | e :: rest, chosen =>
    if e ∈ chosen then padFromBucket count rest chosen
    else
      let c := chosen ++ [e]
      if count ≤ c.length then c else padFromBucket count rest c

/-- The month-day visited at backtrack step `offset`: `doy =
target_doy - offset`, wrapped by `+365` when non-positive, then
converted back to `MM-DD`. -/
def offsetMD (target_doy : ℤ) (offset : ℕ) : String :=
  let doy : ℤ :=
    if target_doy - offset ≤ 0 then target_doy - offset + 365 else target_doy - offset
  day_of_year_to_md doy.toNat

/-- The day-of-year backtracking loop of `choose_photos_for_today`,
over the explicit offset list `range 365`.  `sample` models
`random.sample` (selection without replacement). -/
def flatSearch (sample : List PhotoRecord → ℕ → List PhotoRecord) (threshold : ℚ)
    (count : ℕ) (items : List PhotoRecord) (target_md : String) (target_doy : ℤ) :
    List ℕ → Option (List PhotoRecord × FlatInfo)
  | [] => none
  | offset :: rest =>
    let md := offsetMD target_doy offset
    let arr := bucketFor items md
    if arr = [] then flatSearch sample threshold count items target_md target_doy rest
    else
      let candidates := arr.filter (fun p => threshold < p.memory)
      if candidates = [] then flatSearch sample threshold count items target_md target_doy rest
      else
        let chosen :=
          if count ≤ candidates.length then sample candidates count
          else padFromBucket count arr candidates
        some (chosen,
          { target_md := target_md, used_md := md, day_offset := some (-(offset : ℤ)),
            candidate_count := candidates.length, total_count_md := arr.length,
            threshold := threshold, fallback_global_max := false })

/-- `choose_photos_for_today`: flat selection.  The module constant
`MEMORY_THRESHOLD` is passed as the `threshold` parameter; `today` is
passed as its (valid-date) month and day numbers. -/
def choose_photos_for_today (sample : List PhotoRecord → ℕ → List PhotoRecord)
    (threshold : ℚ) (items : List PhotoRecord) (todayM todayD : ℕ) (count : ℕ) :
    Except SelError (List PhotoRecord × FlatInfo) :=
  if items = [] then .error .emptyInput
  else
    let target_md := mdString todayM todayD
    match md_to_day_of_year target_md with
    | none => .error .unparsableDate
    | some target_doy =>
      match flatSearch sample threshold count items target_md (target_doy : ℤ)
          (List.range 365) with
      | some res => .ok res
      | none =>
        let sorted_all := sortByMemoryDesc items
        let chosen := sorted_all.take count
        .ok (chosen,
          { target_md := target_md,
            used_md := match chosen with | [] => "" | c :: _ => c.md,
            day_offset := none, candidate_count := chosen.length,
            total_count_md := items.length, threshold := threshold,
            fallback_global_max := true })

/-! ## Balanced (orientation) selection -/

/-- The diagnostics dict returned by `choose_photos_by_orientation`. -/
structure BalancedInfo where
  target_md : String
  used_md : String
  requested_landscape : ℕ
  requested_portrait : ℕ
  returned_count : ℕ
  threshold : ℚ
deriving DecidableEq, Repr

/-- Add one day's qualifying candidates to the running pool,
deduplicating by path against the `seen_paths` set. -/
def addCands : List PhotoRecord → List PhotoRecord → List String →
    List PhotoRecord × List String
  | [], pool, seen => (pool, seen)
  | p :: rest, pool, seen =>
    if p.path ∈ seen then addCands rest pool seen
    else addCands rest (pool ++ [p]) (p.path :: seen)

/-- The day-of-year backtracking loop of `choose_photos_by_orientation`:
accumulate qualifying candidates per visited day, classify the pool by
orientation (`orient` models the `is_landscape` image probe, `none`
when undeterminable), and stop as soon as both targets are met,
recording the completing day; returns the pool and `used_md` (`""`
when the loop exhausts without a break). -/
def poolLoop (orient : String → Option Bool) (threshold : ℚ)
    (landscape_count portrait_count : ℕ) (items : List PhotoRecord) (target_doy : ℤ) :
    List ℕ → List PhotoRecord → List String → List PhotoRecord × String
  | [], pool, _ => (pool, "")
  | offset :: rest, pool, seen =>
    let md := offsetMD target_doy offset
    let arr := bucketFor items md
    if arr = [] then
      poolLoop orient threshold landscape_count portrait_count items target_doy rest pool seen
    else
      let candidates := arr.filter (fun p => threshold < p.memory)
      if candidates = [] then
        poolLoop orient threshold landscape_count portrait_count items target_doy rest pool seen
      else
        let ps := addCands candidates pool seen
        let lands := ps.1.filter (fun p => orient p.path = some true)
        let ports := ps.1.filter (fun p => orient p.path = some false)
        if landscape_count ≤ lands.length ∧ portrait_count ≤ ports.length then (ps.1, md)
        else
          poolLoop orient threshold landscape_count portrait_count items target_doy rest
            ps.1 ps.2

/-- The global top-memory fill of balanced mode: walk the globally
sorted records, skip paths already chosen, append to whichever
orientation class is still short (an unclassifiable record fills any
short class), and stop once the total target is reached. -/
def globalFill (orient : String → Option Bool) (landscape_count portrait_count : ℕ) :
    List PhotoRecord → List PhotoRecord → List PhotoRecord
  | [], chosen => chosen
  | p :: rest, chosen =>
    if p.path ∈ chosen.map (fun c => c.path) then
      globalFill orient landscape_count portrait_count rest chosen
    else
      let c :=
        match orient p.path with
        | some true =>
          if (chosen.filter (fun c => orient c.path = some true)).length < landscape_count
          then chosen ++ [p] else chosen
        | some false =>
          if (chosen.filter (fun c => orient c.path = some false)).length < portrait_count
          then chosen ++ [p] else chosen
        | none =>
          if (chosen.filter (fun c => orient c.path = some true)).length < landscape_count
          then chosen ++ [p]
          else if (chosen.filter (fun c => orient c.path = some false)).length <
              portrait_count
          then chosen ++ [p] else chosen
      if landscape_count + portrait_count ≤ c.length then c
      else globalFill orient landscape_count portrait_count rest c

/-- The final dedup-by-path pass (`seen` accumulates paths). -/
def dedupByPathGo : List PhotoRecord → List String → List PhotoRecord
  | [], _ => []
  | c :: rest, seen =>
    if c.path ∈ seen then dedupByPathGo rest seen
    else c :: dedupByPathGo rest (c.path :: seen)

/-- The final dedup of `choose_photos_by_orientation`. -/
def dedupByPath (l : List PhotoRecord) : List PhotoRecord := dedupByPathGo l []

/-- `choose_photos_by_orientation`: balanced selection. -/
def choose_photos_by_orientation (sample : List PhotoRecord → ℕ → List PhotoRecord)
    (orient : String → Option Bool) (threshold : ℚ) (items : List PhotoRecord)
    (todayM todayD : ℕ) (landscape_count portrait_count : ℕ) :
    Except SelError (List PhotoRecord × BalancedInfo) :=
  if items = [] then .error .emptyInput
  else
    let target_md := mdString todayM todayD
    match md_to_day_of_year target_md with
    | none => .error .unparsableDate
    | some target_doy =>
      let ps := poolLoop orient threshold landscape_count portrait_count items
        (target_doy : ℤ) (List.range 365) [] []
      let pool := ps.1
      let used_md := ps.2
      let lands := pool.filter (fun p => orient p.path = some true)
      let ports := pool.filter (fun p => orient p.path = some false)
      let chosen :=
        (if landscape_count ≤ lands.length then sample lands landscape_count else lands) ++
        (if portrait_count ≤ ports.length then sample ports portrait_count else ports)
      let chosen2 :=
        if chosen.length < landscape_count + portrait_count then
          globalFill orient landscape_count portrait_count (sortByMemoryDesc items) chosen
        else chosen
      let final := dedupByPath chosen2
      .ok (final,
        { target_md := target_md,
          used_md := if used_md ≠ "" then used_md
            else match final with | [] => "" | c :: _ => c.md,
          requested_landscape := landscape_count,
          requested_portrait := portrait_count,
          returned_count := final.length,
          threshold := threshold })

/-! ## Concrete instances used by counterexamples and witnesses -/

/-- `random.sample` modelled deterministically as `take`, for concrete
evaluations. -/
def takeSample : List PhotoRecord → ℕ → List PhotoRecord := fun l n => l.take n

def recA : PhotoRecord :=
  ⟨"/photos/a.jpg", "2020-07-04", "07-04", "", 80, .absent, .absent, ""⟩

def recB : PhotoRecord :=
  ⟨"/photos/b.jpg", "2019-07-04", "07-04", "", 10, .absent, .absent, ""⟩

/-- A portrait-oriented record, below threshold. -/
def recP : PhotoRecord :=
  ⟨"/photos/p.jpg", "2020-01-10", "01-10", "", 50, .absent, .absent, ""⟩

/-- A landscape-oriented record, below threshold. -/
def recL : PhotoRecord :=
  ⟨"/photos/l.jpg", "2020-01-11", "01-11", "", 40, .absent, .absent, ""⟩

/-- Concrete orientation probe for the counterexample pool. -/
def orientCE : String → Option Bool := fun s =>
  if s = "/photos/p.jpg" then some false
  else if s = "/photos/l.jpg" then some true
  else none

/-! ## Compositor: location formatting and cover-fit geometry -/

/-- Python `str.strip()`: drop leading and trailing whitespace. -/
def pyStrip (s : String) : String :=
  String.mk (((s.data.dropWhile Char.isWhitespace).reverse.dropWhile
    Char.isWhitespace).reverse)

/-- Left-pad a decimal rendering to 5 digits. -/
def pad5 (n : ℕ) : String :=
  let s := toString n
  String.mk (List.replicate (5 - s.length) '0') ++ s

/-- Fixed-point rendering with 5 decimal places; models Python
`f"{x:.5f}"` (round to nearest at the 5th decimal; the tie-breaking
direction and the sign of a negative zero are immaterial to every use
in this development). -/
def format5 (q : ℚ) : String :=
  let n : ℤ := ⌊q * 100000 + 1/2⌋
  let sign := if n < 0 then "-" else ""
  let a := n.natAbs
  sign ++ toString (a / 100000) ++ "." ++ pad5 (a % 100000)

/-- `format_location`: city if truthy and non-blank after strip, else
the two coordinates at 5 decimals when both are present and numeric,
else the empty string. -/
def format_location (lat lon : CoordVal) (city : String) : String :=
  if city ≠ "" ∧ pyStrip city ≠ "" then pyStrip city
  else if lat = CoordVal.absent ∨ lon = CoordVal.absent then ""
  else
    match lat, lon with
    | CoordVal.num a, CoordVal.num b => format5 a ++ ", " ++ format5 b
    | _, _ => ""

/-- The location string as the spec sentence literally reads: "the
city when it is non-empty", otherwise the formatted coordinates when
both present and numeric, otherwise empty. -/
def locationSpec (lat lon : CoordVal) (city : String) : String :=
  if city ≠ "" then city
  else
    match lat, lon with
    | CoordVal.num a, CoordVal.num b => format5 a ++ ", " ++ format5 b
    | _, _ => ""

/-- The location string as amended: the stripped city when the city is
non-blank (non-empty after stripping), otherwise the formatted
coordinates when both present and numeric, otherwise empty. -/
def locationSpecAmended (lat lon : CoordVal) (city : String) : String :=
  if pyStrip city ≠ "" then pyStrip city
  else
    match lat, lon with
    | CoordVal.num a, CoordVal.num b => format5 a ++ ", " ++ format5 b
    | _, _ => ""

/-- Landscape canvas preset (width, height). -/
def LANDSCAPE_CANVAS : ℤ × ℤ := (2048, 1536)

/-- Portrait canvas preset (width, height). -/
def PORTRAIT_CANVAS : ℤ × ℤ := (1536, 2048)

/-- Height of the bottom text band in pixels. -/
def TEXT_AREA_HEIGHT : ℤ := 180

/-- The geometric quantities computed by `render_image`. -/
structure RenderGeom where
  canvas_w : ℤ
  canvas_h : ℤ
  img_area_w : ℤ
  img_area_h : ℤ
  draw_w : ℤ
  draw_h : ℤ
  left : ℤ
  top : ℤ
  right : ℤ
  bottom : ℤ
deriving DecidableEq, Repr

/-- The geometry part of `render_image`: canvas preset by orientation
(square counts as landscape), photo region above the text band,
cover-fit scale over `ℚ`, `int()` truncation of the non-negative
resize dimensions (= floor), center-crop offsets with Python `//`
floor division, `none` when a dimension is zero
(`RuntimeError 图片尺寸非法`). -/
def render_geometry (img_w img_h : ℕ) : Option RenderGeom :=
  let c := if img_w ≥ img_h then LANDSCAPE_CANVAS else PORTRAIT_CANVAS
  if img_w = 0 ∨ img_h = 0 then none
  else
    let img_area_w : ℤ := c.1
    let img_area_h : ℤ := c.2 - TEXT_AREA_HEIGHT
    let scale : ℚ := max ((img_area_w : ℚ) / (img_w : ℚ)) ((img_area_h : ℚ) / (img_h : ℚ))
    let draw_w : ℤ := ⌊(img_w : ℚ) * scale⌋
    let draw_h : ℤ := ⌊(img_h : ℚ) * scale⌋
    let left := max 0 ((draw_w - img_area_w).fdiv 2)
    let top := max 0 ((draw_h - img_area_h).fdiv 2)
    some
      { canvas_w := c.1, canvas_h := c.2, img_area_w := img_area_w,
        img_area_h := img_area_h, draw_w := draw_w, draw_h := draw_h,
        left := left, top := top, right := left + img_area_w,
        bottom := top + img_area_h }

/-- The geometry `render_image` computes for a 4000×3000 source. -/
def geomC7 : RenderGeom :=
  { canvas_w := 2048, canvas_h := 1536, img_area_w := 2048, img_area_h := 1356,
    draw_w := 2048, draw_h := 1536, left := 0, top := 90, right := 2048,
    bottom := 1446 }

/-- A landscape-oriented record above threshold. -/
def recL2 : PhotoRecord :=
  ⟨"/photos/l2.jpg", "2018-07-04", "07-04", "", 80, .absent, .absent, ""⟩

/-- A portrait-oriented record above threshold. -/
def recP2 : PhotoRecord :=
  ⟨"/photos/p2.jpg", "2017-07-04", "07-04", "", 85, .absent, .absent, ""⟩

/-- Concrete orientation probe for the witness pool. -/
def orientW : String → Option Bool := fun s =>
  if s = "/photos/l2.jpg" then some true
  else if s = "/photos/p2.jpg" then some false
  else none

/-! ## Quantizer: `applyFourColorDither` (from `server.py`) -/

/-- One RGBA pixel of the canvas `ImageData` (channel values as exact
rationals; the input canvas holds integers 0–255). -/
structure Px where
  r : ℚ
  g : ℚ
  b : ℚ
  a : ℚ
deriving DecidableEq, Repr

/-- One palette color. -/
structure PColor where
  r : ℚ
  g : ℚ
  b : ℚ
deriving DecidableEq, Repr

/-- The RGB part of a pixel. -/
def pxColor (p : Px) : PColor := ⟨p.r, p.g, p.b⟩

/-- The fixed 4-color palette: black, white, saturated red, gold. -/
def palette : List PColor := [⟨0, 0, 0⟩, ⟨255, 255, 255⟩, ⟨200, 0, 0⟩, ⟨220, 180, 0⟩]

/-- `v < 0 ? 0 : (v > 255 ? 255 : v)`. -/
def clamp255 (v : ℚ) : ℚ := if v < 0 then 0 else if 255 < v then 255 else v

/-- `nearestColor`: scan the palette keeping the first strictly closer
color by squared Euclidean distance; `none` as the running best
distance plays the role of the initial `Infinity`. -/
def nearestColor (r g b : ℚ) : PColor :=
  (palette.foldl
    (fun acc c =>
      let dist := (r - c.r) * (r - c.r) + (g - c.g) * (g - c.g) + (b - c.b) * (b - c.b)
      match acc.2 with
      | none => (c, some dist)
      | some bd => if dist < bd then (c, some dist) else acc)
    (⟨0, 0, 0⟩, none)).1

/-- The state of the dither pass: pixel buffer (row-major index
`y*w + x`) and the six per-channel error rows (`errR/G/B`,
`nextErrR/G/B`), modelled as functions guarded by the very bounds
checks of the source. -/
structure DitherState where
  data : ℕ → Px
  errR : ℕ → ℚ
  errG : ℕ → ℚ
  errB : ℕ → ℚ
  nextErrR : ℕ → ℚ
  nextErrG : ℕ → ℚ
  nextErrB : ℕ → ℚ

/-- The all-zero error row (`new Float32Array(w)`). -/
def zeroRow : ℕ → ℚ := fun _ => 0

/-- `f[i] += v`. -/
def upd (f : ℕ → ℚ) (i : ℕ) (v : ℚ) : ℕ → ℚ := Function.update f i (f i + v)

/-- The clamped effective channel values at `(x, y)`:
`clamp(data[idx] + err[x])` per channel. -/
def effAt (w x y : ℕ) (st : DitherState) : ℚ × ℚ × ℚ :=
  let px := st.data (y * w + x)
  (clamp255 (px.r + st.errR x), clamp255 (px.g + st.errG x), clamp255 (px.b + st.errB x))

/-- The per-channel residual `effective − chosenPaletteValue` at `(x, y)`. -/
def residAt (w x y : ℕ) (st : DitherState) : ℚ × ℚ × ℚ :=
  let e := effAt w x y st
  let nc := nearestColor e.1 e.2.1 e.2.2
  (e.1 - nc.r, e.2.1 - nc.g, e.2.2 - nc.b)

/-- The four guarded neighbor writes of one channel's residual `e`:
`7/16` to `err[x+1]` when `x+1 < w`; under `y+1 < h`, `3/16` to
`nextErr[x-1]` when `x > 0`, `5/16` to `nextErr[x]`, and `1/16` to
`nextErr[x+1]` when `x+1 < w`.  Out-of-bounds shares are simply not
written anywhere. -/
def diffuseChan (w h x y : ℕ) (e : ℚ) (f nf : ℕ → ℚ) : (ℕ → ℚ) × (ℕ → ℚ) :=
  let f' := if x + 1 < w then upd f (x + 1) (e * (7 / 16)) else f
  let n0 := if y + 1 < h ∧ 0 < x then upd nf (x - 1) (e * (3 / 16)) else nf
  let n1 := if y + 1 < h then upd n0 x (e * (5 / 16)) else n0
  let n2 := if y + 1 < h ∧ x + 1 < w then upd n1 (x + 1) (e * (1 / 16)) else n1
  (f', n2)

/-- One pixel of the dither loop: clamp, pick the nearest palette
color, write it back (alpha untouched), and diffuse the residual. -/
def pixelStep (w h x y : ℕ) (st : DitherState) : DitherState :=
  let e := effAt w x y st
  let nc := nearestColor e.1 e.2.1 e.2.2
  let px := st.data (y * w + x)
  let rs := residAt w x y st
  let cR := diffuseChan w h x y rs.1 st.errR st.nextErrR
  let cG := diffuseChan w h x y rs.2.1 st.errG st.nextErrG
  let cB := diffuseChan w h x y rs.2.2 st.errB st.nextErrB
  { data := Function.update st.data (y * w + x) { px with r := nc.r, g := nc.g, b := nc.b },
    errR := cR.1, errG := cG.1, errB := cB.1,
    nextErrR := cR.2, nextErrG := cG.2, nextErrB := cB.2 }

/-- End of a row: when another row follows, the next-row buffers become
current and fresh zero buffers take their place. -/
def rowEnd (h y : ℕ) (st : DitherState) : DitherState :=
  if y + 1 < h then
    { st with
      errR := st.nextErrR
      errG := st.nextErrG
      errB := st.nextErrB
      nextErrR := zeroRow
      nextErrG := zeroRow
      nextErrB := zeroRow }
  else st

/-- One full row `y`: the inner `x` loop then the buffer swap. -/
def ditherRow (w h y : ℕ) (st : DitherState) : DitherState :=
  rowEnd h y ((List.range w).foldl (fun s x => pixelStep w h x y s) st)

/-- The whole pass, starting from zeroed error buffers. -/
def ditherAll (w h : ℕ) (data : ℕ → Px) : DitherState :=
  (List.range h).foldl (fun s y => ditherRow w h y s)
    ⟨data, zeroRow, zeroRow, zeroRow, zeroRow, zeroRow, zeroRow⟩

/-- `applyFourColorDither`: the final pixel buffer written back by
`ctx.putImageData`. -/
def applyFourColorDither (w h : ℕ) (data : ℕ → Px) : ℕ → Px :=
  (ditherAll w h data).data

/-- Sum of one error row over the image width. -/
def rowSum (f : ℕ → ℚ) (w : ℕ) : ℚ := ∑ i ∈ Finset.range w, f i

/-- The total weight (over 16) of the neighbor shares that actually
land inside the image for a pixel at `(x, y)`. -/
def inWeight (w h x y : ℕ) : ℚ :=
  ((if x + 1 < w then 7 else 0) +
    (if y + 1 < h then
      (if 0 < x then 3 else 0) + 5 + (if x + 1 < w then 1 else 0)
    else 0)) / 16

/-- A concrete dither state used by witnesses. -/
def ditherStateW : DitherState :=
  ⟨fun _ => ⟨100, 100, 100, 255⟩, zeroRow, zeroRow, zeroRow, zeroRow, zeroRow, zeroRow⟩

/-! # Theorems -/

theorem roundtrip_bounded :
    ∀ m < 13, ∀ d < 32, validMD m d →
      (md_to_day_of_year (mdString m d)).map day_of_year_to_md = some (mdString m d) := by
  decide

theorem month_days_le_31 : ∀ k < 13, month_days.getD k 0 ≤ 31 := by decide

/-- C4: for every valid month-day `MM-DD` of a non-leap calendar year,
`md_to_day_of_year` followed by `day_of_year_to_md` returns the
original string. -/
theorem C4_day_of_year_roundtrip (m d : ℕ) (h : validMD m d) :
    (md_to_day_of_year (mdString m d)).map day_of_year_to_md = some (mdString m d) := by
  obtain ⟨h1, h2, h3, h4⟩ := h
  have hm : m < 13 := Nat.lt_succ_of_le h2
  have hd : d < 32 := by
    have : month_days.getD (m - 1) 0 ≤ 31 := month_days_le_31 (m - 1) (by omega)
    omega
  exact roundtrip_bounded m hm d hd ⟨h1, h2, h3, h4⟩

theorem C4_day_of_year_roundtrip_witness :
    validMD 7 4 ∧
      (md_to_day_of_year (mdString 7 4)).map day_of_year_to_md = some (mdString 7 4) :=
  ⟨by decide, C4_day_of_year_roundtrip 7 4 (by decide)⟩

theorem insertByMemoryDesc_perm (r : PhotoRecord) (l : List PhotoRecord) :
    (insertByMemoryDesc r l).Perm (r :: l) := by
  induction l with
  | nil => simp [insertByMemoryDesc]
  | cons x xs ih =>
    simp only [insertByMemoryDesc]
    split
    · exact (ih.cons x).trans (List.Perm.swap r x xs)
    · exact List.Perm.refl _

theorem sortByMemoryDesc_perm (l : List PhotoRecord) : (sortByMemoryDesc l).Perm l := by
  suffices h : ∀ (l acc : List PhotoRecord),
      (l.foldl (fun acc r => insertByMemoryDesc r acc) acc).Perm (l ++ acc) by
    simpa using h l []
  intro l
  induction l with
  | nil => intro acc; simp
  | cons r rest ih =>
    intro acc
    have h1 := ih (insertByMemoryDesc r acc)
    have h2 : (rest ++ insertByMemoryDesc r acc).Perm (rest ++ r :: acc) :=
      List.Perm.append_left rest (insertByMemoryDesc_perm r acc)
    have h3 : (rest ++ r :: acc).Perm (r :: (rest ++ acc)) := List.perm_middle
    simpa using (h1.trans h2).trans h3

theorem padFromBucket_mem (count : ℕ) (arr : List PhotoRecord) (chosen : List PhotoRecord)
    (p : PhotoRecord) (hp : p ∈ padFromBucket count arr chosen) : p ∈ chosen ∨ p ∈ arr := by
  induction arr generalizing chosen with
  | nil => simp only [padFromBucket] at hp; exact Or.inl hp
  | cons e rest ih =>
    simp only [padFromBucket] at hp
    split at hp
    · rcases ih chosen hp with h | h
      · exact Or.inl h
      · exact Or.inr (List.mem_cons_of_mem e h)
    · split at hp
      · rcases List.mem_append.mp hp with h | h
        · exact Or.inl h
        · simp only [List.mem_singleton] at h
          exact Or.inr (by simp [h])
      · rcases ih _ hp with h | h
        · rcases List.mem_append.mp h with h | h
          · exact Or.inl h
          · simp only [List.mem_singleton] at h
            exact Or.inr (by simp [h])
        · exact Or.inr (List.mem_cons_of_mem e h)

theorem padFromBucket_nodup (count : ℕ) (arr : List PhotoRecord) (chosen : List PhotoRecord)
    (h : chosen.Nodup) : (padFromBucket count arr chosen).Nodup := by
  induction arr generalizing chosen with
  | nil => simpa [padFromBucket]
  | cons e rest ih =>
    simp only [padFromBucket]
    split
    · exact ih chosen h
    · rename_i he
      have hc : (chosen ++ [e]).Nodup := by
        rw [List.nodup_append]
        refine ⟨h, List.nodup_singleton e, ?_⟩
        intro a ha hae
        simp only [List.mem_singleton] at hae
        exact he (hae ▸ ha)
      split
      · exact hc
      · exact ih _ hc

theorem flatSearch_sound (sample : List PhotoRecord → ℕ → List PhotoRecord)
    (threshold : ℚ) (count : ℕ) (items : List PhotoRecord) (tmd : String) (tdoy : ℤ)
    (offs : List ℕ) (chosen : List PhotoRecord) (inf : FlatInfo)
    (Hsub : ∀ l n, ∀ x ∈ sample l n, x ∈ l)
    (h : flatSearch sample threshold count items tmd tdoy offs = some (chosen, inf)) :
    inf.fallback_global_max = false ∧
      (∀ p ∈ chosen, threshold < p.memory ∨ p.md = inf.used_md) ∧
      (count ≤ inf.candidate_count → ∀ p ∈ chosen, threshold < p.memory) := by
  induction offs with
  | nil => simp [flatSearch] at h
  | cons o rest ih =>
    simp only [flatSearch] at h
    split at h
    · exact ih h
    · split at h
      · exact ih h
      · simp only [Option.some.injEq, Prod.mk.injEq] at h
        obtain ⟨hc, hi⟩ := h
        subst hi
        rw [← hc]
        refine ⟨rfl, ?_, ?_⟩
        · intro p hp
          split at hp
          · have h2 := List.of_mem_filter (Hsub _ _ p hp)
            simp only [decide_eq_true_eq] at h2
            exact Or.inl h2
          · rcases padFromBucket_mem _ _ _ p hp with hm | hm
            · have h2 := List.of_mem_filter hm
              simp only [decide_eq_true_eq] at h2
              exact Or.inl h2
            · have hm' := (sortByMemoryDesc_perm _).mem_iff.mp hm
              have h2 := List.of_mem_filter hm'
              simp only [decide_eq_true_eq] at h2
              exact Or.inr h2
        · intro hcnt p hp
          split at hp
          · have h2 := List.of_mem_filter (Hsub _ _ p hp)
            simp only [decide_eq_true_eq] at h2
            exact h2
          · rename_i hlen
            exact absurd hcnt hlen

theorem takeSample_sub : ∀ (l : List PhotoRecord) (n : ℕ), ∀ x ∈ takeSample l n, x ∈ l :=
  fun _ _ _ hx => List.mem_of_mem_take hx

theorem takeSample_nodup : ∀ (l : List PhotoRecord) (n : ℕ), l.Nodup →
    (takeSample l n).Nodup :=
  fun l n h => h.sublist (List.take_sublist n l)

theorem takeSample_len : ∀ (l : List PhotoRecord) (n : ℕ), n ≤ l.length →
    (takeSample l n).length = n :=
  fun l n h => by simpa [takeSample] using h

/-- C1, counterexample to the claim as stated: with threshold `70`, a
`07-04` bucket holding scores `80` and `10` and `count = 2`, flat
selection pads with the below-threshold record while reporting
`fallback_global_max = false`. -/
theorem C1_counterexample :
    choose_photos_for_today takeSample 70 [recA, recB] 7 4 2 =
      .ok ([recA, recB],
        { target_md := "07-04", used_md := "07-04", day_offset := some 0,
          candidate_count := 1, total_count_md := 2, threshold := 70,
          fallback_global_max := false }) ∧
    recB ∈ [recA, recB] ∧ ¬ ((70 : ℚ) < recB.memory) := by
  refine ⟨rfl, by decide, by decide⟩

/-- C1 (amended): when flat selection returns with
`fallback_global_max = false`, every chosen photo either has
`memoryScore > T` or is a deterministic pad drawn from the same-day
bucket actually used (its month-day equals `used_md`); moreover when
the qualifying candidate set already reaches `count`
(`candidate_count ≥ count`), every chosen photo has
`memoryScore > T`. -/
theorem C1_flat_threshold (sample : List PhotoRecord → ℕ → List PhotoRecord)
    (threshold : ℚ) (items : List PhotoRecord) (m d count : ℕ)
    (chosen : List PhotoRecord) (inf : FlatInfo)
    (Hsub : ∀ l n, ∀ x ∈ sample l n, x ∈ l)
    (h : choose_photos_for_today sample threshold items m d count = .ok (chosen, inf))
    (hfb : inf.fallback_global_max = false) :
    (∀ p ∈ chosen, threshold < p.memory ∨ p.md = inf.used_md) ∧
      (count ≤ inf.candidate_count → ∀ p ∈ chosen, threshold < p.memory) := by
  simp only [choose_photos_for_today] at h
  split at h
  · simp at h
  · split at h
    · simp at h
    · split at h
      · rename_i res hsearch
        simp only [Except.ok.injEq] at h
        rw [h] at hsearch
        exact (flatSearch_sound _ _ _ _ _ _ _ _ _ Hsub hsearch).2
      · simp only [Except.ok.injEq, Prod.mk.injEq] at h
        obtain ⟨-, hi⟩ := h
        rw [← hi] at hfb
        simp at hfb

theorem C1_flat_threshold_witness :
    (∀ p ∈ [recA, recB], (70 : ℚ) < p.memory ∨ p.md = "07-04") ∧
      (2 ≤ 1 → ∀ p ∈ [recA, recB], (70 : ℚ) < p.memory) :=
  C1_flat_threshold takeSample 70 [recA, recB] 7 4 2 [recA, recB]
    { target_md := "07-04", used_md := "07-04", day_offset := some 0,
      candidate_count := 1, total_count_md := 2, threshold := 70,
      fallback_global_max := false }
    takeSample_sub rfl rfl

/-- C2, counterexample to the claim as stated: with an all-but-empty
qualifying pool, the global fill appends in global memory-score order,
so a higher-scoring portrait photo precedes a landscape photo in the
final list; the result is not "all landscape selections first". -/
theorem C2_counterexample :
    choose_photos_by_orientation takeSample orientCE 70 [recP, recL] 7 4 1 1 =
      .ok ([recP, recL],
        { target_md := "07-04", used_md := "01-10", requested_landscape := 1,
          requested_portrait := 1, returned_count := 2, threshold := 70 }) ∧
    ¬ (∃ a b, [recP, recL] = a ++ b ∧ (∀ p ∈ a, orientCE p.path = some true) ∧
        (∀ p ∈ b, orientCE p.path = some false)) := by
  constructor
  · set_option maxRecDepth 10000 in rfl
  · rintro ⟨a, b, he, ha, hb⟩
    cases a with
    | nil =>
      simp only [List.nil_append] at he
      have := hb recL (by rw [← he]; simp)
      simp [orientCE, recL] at this
    | cons x a' =>
      have hx : x = recP := by
        have := congrArg (fun l => l.head?) he
        simpa using this.symm
      have := ha x (List.mem_cons_self x a')
      rw [hx] at this
      simp [orientCE, recP] at this

theorem dedupByPathGo_paths (l : List PhotoRecord) (seen : List String) :
    ((dedupByPathGo l seen).map (fun p => p.path)).Nodup ∧
      ∀ p ∈ dedupByPathGo l seen, p.path ∉ seen := by
  induction l generalizing seen with
  | nil => simp [dedupByPathGo]
  | cons c rest ih =>
    simp only [dedupByPathGo]
    split
    · rename_i hcp
      obtain ⟨h1, h2⟩ := ih seen
      exact ⟨h1, h2⟩
    · rename_i hcp
      obtain ⟨h1, h2⟩ := ih (c.path :: seen)
      refine ⟨?_, ?_⟩
      · simp only [List.map_cons, List.nodup_cons]
        refine ⟨?_, h1⟩
        intro hmem
        obtain ⟨p, hp, hpe⟩ := List.mem_map.mp hmem
        exact (h2 p hp) (by simp [hpe])
      · intro p hp
        rcases List.mem_cons.mp hp with h | h
        · subst h; exact hcp
        · intro hin
          exact (h2 p h) (List.mem_cons_of_mem _ hin)

theorem dedupByPathGo_subset (l : List PhotoRecord) (seen : List String)
    (p : PhotoRecord) (hp : p ∈ dedupByPathGo l seen) : p ∈ l := by
  induction l generalizing seen with
  | nil => simp [dedupByPathGo] at hp
  | cons c rest ih =>
    simp only [dedupByPathGo] at hp
    split at hp
    · exact List.mem_cons_of_mem c (ih _ hp)
    · rcases List.mem_cons.mp hp with h | h
      · simp [h]
      · exact List.mem_cons_of_mem c (ih _ h)

theorem dedupByPathGo_append_split (P Q : PhotoRecord → Prop)
    (A B : List PhotoRecord) (seen : List String)
    (hA : ∀ p ∈ A, P p) (hB : ∀ p ∈ B, Q p) :
    ∃ a b, dedupByPathGo (A ++ B) seen = a ++ b ∧
      (∀ p ∈ a, P p) ∧ (∀ p ∈ b, Q p) := by
  induction A generalizing seen with
  | nil =>
    refine ⟨[], dedupByPathGo B seen, by simp, by simp, ?_⟩
    intro p hp
    exact hB p (dedupByPathGo_subset B seen p hp)
  | cons c rest ih =>
    simp only [List.cons_append, dedupByPathGo]
    split
    · exact ih seen (fun p hp => hA p (List.mem_cons_of_mem c hp))
    · obtain ⟨a, b, he, ha, hb⟩ := ih (c.path :: seen)
        (fun p hp => hA p (List.mem_cons_of_mem c hp))
      refine ⟨c :: a, b, ?_, ?_, hb⟩
      · show c :: dedupByPathGo (rest ++ B) (c.path :: seen) = c :: a ++ b
        rw [he, List.cons_append]
      intro p hp
      rcases List.mem_cons.mp hp with h | h
      · exact h ▸ hA c (List.mem_cons_self c rest)
      · exact ha p h

theorem flatSearch_mem_nodup (sample : List PhotoRecord → ℕ → List PhotoRecord)
    (threshold : ℚ) (count : ℕ) (items : List PhotoRecord) (tmd : String) (tdoy : ℤ)
    (offs : List ℕ) (chosen : List PhotoRecord) (inf : FlatInfo)
    (Hsub : ∀ l n, ∀ x ∈ sample l n, x ∈ l)
    (Hnd : ∀ l n, l.Nodup → (sample l n).Nodup)
    (hnd : items.Nodup)
    (h : flatSearch sample threshold count items tmd tdoy offs = some (chosen, inf)) :
    (∀ p ∈ chosen, p ∈ items) ∧ chosen.Nodup := by
  induction offs with
  | nil => simp [flatSearch] at h
  | cons o rest ih =>
    simp only [flatSearch] at h
    split at h
    · exact ih h
    · split at h
      · exact ih h
      · simp only [Option.some.injEq, Prod.mk.injEq] at h
        obtain ⟨hc, -⟩ := h
        rw [← hc]
        have harrnd : (bucketFor items (offsetMD tdoy o)).Nodup :=
          (sortByMemoryDesc_perm _).nodup_iff.mpr (hnd.filter _)
        have harrsub : ∀ p ∈ bucketFor items (offsetMD tdoy o), p ∈ items := by
          intro p hp
          have := (sortByMemoryDesc_perm _).mem_iff.mp hp
          exact List.mem_of_mem_filter this
        have hcandnd := harrnd.filter (fun p => decide (threshold < p.memory))
        have hcandsub : ∀ p ∈ (bucketFor items (offsetMD tdoy o)).filter
            (fun p => decide (threshold < p.memory)), p ∈ items :=
          fun p hp => harrsub p (List.mem_of_mem_filter hp)
        constructor
        · intro p hp
          split at hp
          · exact hcandsub p (Hsub _ _ p hp)
          · rcases padFromBucket_mem _ _ _ p hp with hm | hm
            · exact hcandsub p hm
            · exact harrsub p hm
        · split
          · exact Hnd _ _ hcandnd
          · exact padFromBucket_nodup _ _ _ hcandnd

/-- C6: with pairwise-distinct record paths in the input pool, neither
flat nor balanced selection ever returns two entries with the same
path (the balanced final dedup needs no hypothesis at all). -/
theorem C6_no_duplicate_paths (sample : List PhotoRecord → ℕ → List PhotoRecord)
    (orient : String → Option Bool) (threshold : ℚ) (items : List PhotoRecord)
    (m d count landscape_count portrait_count : ℕ)
    (Hsub : ∀ l n, ∀ x ∈ sample l n, x ∈ l)
    (Hnd : ∀ l n, l.Nodup → (sample l n).Nodup)
    (hpaths : (items.map (fun p => p.path)).Nodup) :
    (∀ chosen inf,
      choose_photos_for_today sample threshold items m d count = .ok (chosen, inf) →
        ((chosen.map (fun p => p.path)).Nodup)) ∧
    (∀ final inf,
      choose_photos_by_orientation sample orient threshold items m d landscape_count
          portrait_count = .ok (final, inf) →
        ((final.map (fun p => p.path)).Nodup)) := by
  have hnd : items.Nodup := List.Nodup.of_map _ hpaths
  have hinj := List.inj_on_of_nodup_map hpaths
  constructor
  · intro chosen inf h
    simp only [choose_photos_for_today] at h
    split at h
    · simp at h
    · split at h
      · simp at h
      · split at h
        · rename_i res hsearch
          simp only [Except.ok.injEq] at h
          rw [h] at hsearch
          obtain ⟨hsub, hchnd⟩ :=
            flatSearch_mem_nodup _ _ _ _ _ _ _ _ _ Hsub Hnd hnd hsearch
          exact hchnd.map_on (fun x hx y hy => hinj (hsub x hx) (hsub y hy))
        · simp only [Except.ok.injEq, Prod.mk.injEq] at h
          obtain ⟨hc, -⟩ := h
          rw [← hc]
          have h1 : (List.take count (sortByMemoryDesc items)).Nodup :=
            ((sortByMemoryDesc_perm items).nodup_iff.mpr hnd).sublist
              (List.take_sublist count _)
          have h2 : ∀ p ∈ List.take count (sortByMemoryDesc items), p ∈ items :=
            fun p hp =>
              (sortByMemoryDesc_perm items).mem_iff.mp (List.mem_of_mem_take hp)
          exact h1.map_on (fun x hx y hy => hinj (h2 x hx) (h2 y hy))
  · intro final inf h
    simp only [choose_photos_by_orientation] at h
    split at h
    · simp at h
    · split at h
      · simp at h
      · simp only [Except.ok.injEq, Prod.mk.injEq] at h
        obtain ⟨hc, -⟩ := h
        rw [← hc]
        exact (dedupByPathGo_paths _ _).1

theorem C6_no_duplicate_paths_witness :
    (∀ chosen inf,
      choose_photos_for_today takeSample 70 [recA, recB] 7 4 2 = .ok (chosen, inf) →
        ((chosen.map (fun p => p.path)).Nodup)) ∧
    (∀ final inf,
      choose_photos_by_orientation takeSample orientCE 70 [recA, recB] 7 4 1 1 =
          .ok (final, inf) →
        ((final.map (fun p => p.path)).Nodup)) :=
  C6_no_duplicate_paths takeSample orientCE 70 [recA, recB] 7 4 2 1 1
    takeSample_sub takeSample_nodup (by decide)

/-- C2 (amended): the balanced result is always deduplicated by path;
whenever the day-of-year pool already satisfies both orientation
targets (so the global fill is not needed) the final list is all
landscape selections followed by all portrait selections.  When the
global fill fires, appended entries follow global memory order and may
interleave orientations (see the counterexample); shortfalls still
return a partial list rather than raising. -/
theorem C2_balanced_order (sample : List PhotoRecord → ℕ → List PhotoRecord)
    (orient : String → Option Bool) (threshold : ℚ) (items : List PhotoRecord)
    (m d landscape_count portrait_count : ℕ) (tdoy : ℕ)
    (final : List PhotoRecord) (inf : BalancedInfo)
    (Hsub : ∀ l n, ∀ x ∈ sample l n, x ∈ l)
    (Hlen : ∀ l n, n ≤ l.length → (sample l n).length = n)
    (hdoy : md_to_day_of_year (mdString m d) = some tdoy)
    (h : choose_photos_by_orientation sample orient threshold items m d landscape_count
        portrait_count = .ok (final, inf)) :
    ((final.map (fun p => p.path)).Nodup) ∧
      (landscape_count ≤ ((poolLoop orient threshold landscape_count portrait_count items
            (tdoy : ℤ) (List.range 365) [] []).1.filter
            (fun p => orient p.path = some true)).length →
        portrait_count ≤ ((poolLoop orient threshold landscape_count portrait_count items
            (tdoy : ℤ) (List.range 365) [] []).1.filter
            (fun p => orient p.path = some false)).length →
        ∃ a b, final = a ++ b ∧ (∀ p ∈ a, orient p.path = some true) ∧
          (∀ p ∈ b, orient p.path = some false)) := by
  simp only [choose_photos_by_orientation] at h
  split at h
  · simp at h
  · split at h
    · simp at h
    · rename_i tdoy' heq
      rw [hdoy] at heq
      injection heq with heq
      subst heq
      simp only [Except.ok.injEq, Prod.mk.injEq] at h
      obtain ⟨hfin, -⟩ := h
      constructor
      · rw [← hfin]
        exact (dedupByPathGo_paths _ _).1
      · intro hl hp
        rw [if_pos hl, if_pos hp] at hfin
        have len1 := Hlen _ _ hl
        have len2 := Hlen _ _ hp
        have hnlt : ¬ ((sample ((poolLoop orient threshold landscape_count portrait_count
            items (tdoy : ℤ) (List.range 365) [] []).1.filter
              (fun p => orient p.path = some true)) landscape_count ++
            sample ((poolLoop orient threshold landscape_count portrait_count
            items (tdoy : ℤ) (List.range 365) [] []).1.filter
              (fun p => orient p.path = some false)) portrait_count).length <
            landscape_count + portrait_count) := by
          rw [List.length_append, len1, len2]
          omega
        rw [if_neg hnlt] at hfin
        obtain ⟨a, b, he, ha, hb⟩ := dedupByPathGo_append_split
          (fun p => orient p.path = some true) (fun p => orient p.path = some false)
          (sample ((poolLoop orient threshold landscape_count portrait_count items
              (tdoy : ℤ) (List.range 365) [] []).1.filter
              (fun p => orient p.path = some true)) landscape_count)
          (sample ((poolLoop orient threshold landscape_count portrait_count items
              (tdoy : ℤ) (List.range 365) [] []).1.filter
              (fun p => orient p.path = some false)) portrait_count)
          []
          (fun p hpm => by
            have h2 := List.of_mem_filter (Hsub _ _ p hpm)
            simpa only [decide_eq_true_eq] using h2)
          (fun p hpm => by
            have h2 := List.of_mem_filter (Hsub _ _ p hpm)
            simpa only [decide_eq_true_eq] using h2)
        exact ⟨a, b, by rw [← hfin]; exact he, ha, hb⟩

theorem C2_balanced_order_witness :
    ((([recL2, recP2]).map (fun p => p.path)).Nodup) ∧
      (1 ≤ ((poolLoop orientW 70 1 1 [recL2, recP2]
            ((185 : ℕ) : ℤ) (List.range 365) [] []).1.filter
            (fun p => orientW p.path = some true)).length →
        1 ≤ ((poolLoop orientW 70 1 1 [recL2, recP2]
            ((185 : ℕ) : ℤ) (List.range 365) [] []).1.filter
            (fun p => orientW p.path = some false)).length →
        ∃ a b, [recL2, recP2] = a ++ b ∧ (∀ p ∈ a, orientW p.path = some true) ∧
          (∀ p ∈ b, orientW p.path = some false)) :=
  C2_balanced_order takeSample orientW 70 [recL2, recP2] 7 4 1 1 185 [recL2, recP2]
    { target_md := "07-04", used_md := "07-04", requested_landscape := 1,
      requested_portrait := 1, returned_count := 2, threshold := 70 }
    takeSample_sub takeSample_len rfl rfl

theorem md2doy_bounded : ∀ m < 13, ∀ d < 32, 1 ≤ m →
    md_to_day_of_year (mdString m d) = some (days_before.getD m 0 + d) := by
  decide

/-- C9: for a valid calendar month/day, both selection entry points
raise `EmptyInput` exactly when the record list is empty, and on any
non-empty list both return an `ok` (chosen, diagnostics) pair instead
of raising. -/
theorem C9_empty_input_iff (sample : List PhotoRecord → ℕ → List PhotoRecord)
    (orient : String → Option Bool) (threshold : ℚ) (items : List PhotoRecord)
    (m d count landscape_count portrait_count : ℕ)
    (hm1 : 1 ≤ m) (hm2 : m ≤ 12) (hd : d ≤ 31) :
    (choose_photos_for_today sample threshold items m d count = .error .emptyInput ↔
      items = []) ∧
    (choose_photos_by_orientation sample orient threshold items m d landscape_count
        portrait_count = .error .emptyInput ↔ items = []) ∧
    (items ≠ [] →
      (∃ r, choose_photos_for_today sample threshold items m d count = .ok r) ∧
      (∃ r, choose_photos_by_orientation sample orient threshold items m d landscape_count
        portrait_count = .ok r)) := by
  have hparse : md_to_day_of_year (mdString m d) = some (days_before.getD m 0 + d) :=
    md2doy_bounded m (by omega) d (by omega) hm1
  by_cases hit : items = []
  · subst hit
    exact ⟨by simp [choose_photos_for_today], by simp [choose_photos_by_orientation],
      by simp⟩
  · refine ⟨⟨?_, fun h => absurd h hit⟩, ⟨?_, fun h => absurd h hit⟩, fun _ => ⟨?_, ?_⟩⟩
    · intro herr
      exfalso
      simp only [choose_photos_for_today, if_neg hit, hparse] at herr
      split at herr <;> simp at herr
    · intro herr
      exfalso
      simp only [choose_photos_by_orientation, if_neg hit, hparse] at herr
      simp at herr
    · simp only [choose_photos_for_today, if_neg hit, hparse]
      split
      · exact ⟨_, rfl⟩
      · exact ⟨_, rfl⟩
    · simp only [choose_photos_by_orientation, if_neg hit, hparse]
      exact ⟨_, rfl⟩

theorem C9_empty_input_iff_witness :
    (choose_photos_for_today takeSample 70 [recA] 7 4 5 = .error .emptyInput ↔
      [recA] = []) ∧
    (choose_photos_by_orientation takeSample orientCE 70 [recA] 7 4 1 1 =
      .error .emptyInput ↔ [recA] = []) ∧
    (([recA] : List PhotoRecord) ≠ [] →
      (∃ r, choose_photos_for_today takeSample 70 [recA] 7 4 5 = .ok r) ∧
      (∃ r, choose_photos_by_orientation takeSample orientCE 70 [recA] 7 4 1 1 = .ok r)) :=
  C9_empty_input_iff takeSample orientCE 70 [recA] 7 4 5 1 1
    (by decide) (by decide) (by decide)

/-- C8, counterexample to the claim as stated: a whitespace-only city
is non-empty, yet the code falls through to the coordinates instead of
rendering it. -/
theorem C8_counterexample :
    format_location (CoordVal.num 1) (CoordVal.num 2) " " = "1.00000, 2.00000" ∧
      locationSpec (CoordVal.num 1) (CoordVal.num 2) " " = " " ∧
      format_location (CoordVal.num 1) (CoordVal.num 2) " " ≠
        locationSpec (CoordVal.num 1) (CoordVal.num 2) " " := by
  have h1 : format5 (1 : ℚ) = "1.00000" := by
    have h : (⌊(1 : ℚ) * 100000 + 1/2⌋ : ℤ) = 100000 := by norm_num
    simp only [format5, h]
    decide
  have h2 : format5 (2 : ℚ) = "2.00000" := by
    have h : (⌊(2 : ℚ) * 100000 + 1/2⌋ : ℤ) = 200000 := by norm_num
    simp only [format5, h]
    decide
  have hfl : format_location (CoordVal.num 1) (CoordVal.num 2) " " = "1.00000, 2.00000" := by
    simp only [format_location]
    rw [if_neg (by decide), if_neg (by decide)]
    rw [h1, h2]
    decide
  refine ⟨hfl, by decide, ?_⟩
  rw [hfl]
  decide

/-- C8 (amended): for every combination of coordinates and city, the
rendered location string is the stripped city when the city is
non-blank, else the coordinates at 5 decimals when both are present
and numeric, else the empty string — never a placeholder. -/
theorem C8_location (lat lon : CoordVal) (city : String) :
    format_location lat lon city = locationSpecAmended lat lon city := by
  unfold format_location locationSpecAmended
  by_cases h2 : pyStrip city = ""
  · have hnc : ¬ (city ≠ "" ∧ pyStrip city ≠ "") := by simp [h2]
    rw [if_neg hnc, if_neg (not_not_intro h2)]
    cases lat <;> cases lon <;> simp
  · have h1 : city ≠ "" := fun hc => h2 (by rw [hc]; decide)
    rw [if_pos ⟨h1, h2⟩, if_pos h2]

/-- C7: compositing a 4000×3000 source selects the 2048×1536 landscape
canvas, yields a photo region of exactly 2048×1356 (canvas height
minus the 180-pixel band), resize dimensions covering that region, and
center-crop offsets `max 0 ((resized − region) // 2)` giving a crop of
exactly the region size. -/
theorem C7_compose_4000x3000 :
    render_geometry 4000 3000 = some geomC7 ∧
      geomC7.canvas_w = 2048 ∧ geomC7.canvas_h = 1536 ∧
      geomC7.img_area_w = 2048 ∧ geomC7.img_area_h = 1356 ∧
      geomC7.img_area_w ≤ geomC7.draw_w ∧ geomC7.img_area_h ≤ geomC7.draw_h ∧
      geomC7.left = max 0 ((geomC7.draw_w - geomC7.img_area_w).fdiv 2) ∧
      geomC7.top = max 0 ((geomC7.draw_h - geomC7.img_area_h).fdiv 2) ∧
      geomC7.right - geomC7.left = 2048 ∧ geomC7.bottom - geomC7.top = 1356 := by
  refine ⟨?_, by decide, by decide, by decide, by decide, by decide, by decide,
    by decide, by decide, by decide, by decide⟩
  simp only [render_geometry, LANDSCAPE_CANVAS, PORTRAIT_CANVAS, TEXT_AREA_HEIGHT, geomC7]
  norm_num
  rw [max_def]
  have hf : Int.fdiv (180 : ℤ) 2 = 90 := by decide
  rw [hf]
  omega

theorem rowSum_upd (f : ℕ → ℚ) (i w : ℕ) (v : ℚ) (hi : i < w) :
    rowSum (upd f i v) w = rowSum f w + v := by
  unfold rowSum upd
  rw [Finset.sum_update_of_mem (Finset.mem_range.mpr hi)]
  rw [Finset.sum_eq_sum_diff_singleton_add (Finset.mem_range.mpr hi) f]
  ring

theorem diffuseChan_mass (w h x y : ℕ) (e : ℚ) (f nf : ℕ → ℚ) (hxw : x < w) :
    rowSum (diffuseChan w h x y e f nf).1 w + rowSum (diffuseChan w h x y e f nf).2 w =
      rowSum f w + rowSum nf w + e * inWeight w h x y := by
  simp only [diffuseChan, inWeight]
  split_ifs <;> try (exfalso; omega)
  all_goals repeat rw [rowSum_upd _ _ _ _ (by omega)]
  all_goals ring

/-- C3: for every pixel `(x, y)` of the image (`x < w`), the total
error mass added to the accumulator rows by the residual-diffusion
writes of one channel equals the per-channel residual
`effectiveValue − chosenPaletteValue` times the in-bounds weight
`inWeight`; when all four neighbors `(x+1,y)`, `(x−1,y+1)`, `(x,y+1)`,
`(x+1,y+1)` lie inside the image that weight is exactly `1`
(7/16+3/16+5/16+1/16), so the distributed shares sum exactly to the
residual, and shares aimed at out-of-bounds neighbors are simply
dropped (the mass equation shows nothing is redistributed). -/
theorem C3_diffusion_conservation (w h x y : ℕ) (st : DitherState) (hxw : x < w) :
    (rowSum (pixelStep w h x y st).errR w + rowSum (pixelStep w h x y st).nextErrR w =
      rowSum st.errR w + rowSum st.nextErrR w +
        (residAt w x y st).1 * inWeight w h x y) ∧
    (rowSum (pixelStep w h x y st).errG w + rowSum (pixelStep w h x y st).nextErrG w =
      rowSum st.errG w + rowSum st.nextErrG w +
        (residAt w x y st).2.1 * inWeight w h x y) ∧
    (rowSum (pixelStep w h x y st).errB w + rowSum (pixelStep w h x y st).nextErrB w =
      rowSum st.errB w + rowSum st.nextErrB w +
        (residAt w x y st).2.2 * inWeight w h x y) ∧
    (x + 1 < w → 0 < x → y + 1 < h → inWeight w h x y = 1) := by
  refine ⟨?_, ?_, ?_, ?_⟩
  · simpa only [pixelStep] using
      diffuseChan_mass w h x y (residAt w x y st).1 st.errR st.nextErrR hxw
  · simpa only [pixelStep] using
      diffuseChan_mass w h x y (residAt w x y st).2.1 st.errG st.nextErrG hxw
  · simpa only [pixelStep] using
      diffuseChan_mass w h x y (residAt w x y st).2.2 st.errB st.nextErrB hxw
  · intro h1 h3 h2
    unfold inWeight
    rw [if_pos h1, if_pos h2, if_pos h3, if_pos h1]
    norm_num

theorem C3_diffusion_conservation_witness :
    (1 : ℕ) < 3 ∧ inWeight 3 2 1 0 = 1 :=
  ⟨by decide,
    (C3_diffusion_conservation 3 2 1 0 ditherStateW (by decide)).2.2.2
      (by decide) (by decide) (by decide)⟩

theorem foldl_nearest_mem (r g b : ℚ) (l : List PColor) (acc : PColor × Option ℚ) :
    (l.foldl
      (fun acc c =>
        let dist := (r - c.r) * (r - c.r) + (g - c.g) * (g - c.g) + (b - c.b) * (b - c.b)
        match acc.2 with
        | none => (c, some dist)
        | some bd => if dist < bd then (c, some dist) else acc)
      acc).1 = acc.1 ∨
    (l.foldl
      (fun acc c =>
        let dist := (r - c.r) * (r - c.r) + (g - c.g) * (g - c.g) + (b - c.b) * (b - c.b)
        match acc.2 with
        | none => (c, some dist)
        | some bd => if dist < bd then (c, some dist) else acc)
      acc).1 ∈ l := by
  induction l generalizing acc with
  | nil => exact Or.inl rfl
  | cons c rest ih =>
    simp only [List.foldl_cons]
    rcases ih
      (match acc.2 with
       | none => (c, some ((r - c.r) * (r - c.r) + (g - c.g) * (g - c.g) +
          (b - c.b) * (b - c.b)))
       | some bd =>
          if (r - c.r) * (r - c.r) + (g - c.g) * (g - c.g) + (b - c.b) * (b - c.b) < bd
          then (c, some ((r - c.r) * (r - c.r) + (g - c.g) * (g - c.g) +
            (b - c.b) * (b - c.b)))
          else acc) with h | h
    · rw [h]
      obtain ⟨a1, a2⟩ := acc
      cases a2 with
      | none => exact Or.inr (List.mem_cons_self c rest)
      | some bd =>
        dsimp only
        split
        · exact Or.inr (List.mem_cons_self c rest)
        · exact Or.inl rfl
    · exact Or.inr (List.mem_cons_of_mem c h)

theorem nearestColor_mem (r g b : ℚ) : nearestColor r g b ∈ palette := by
  unfold nearestColor
  rcases foldl_nearest_mem r g b palette (⟨0, 0, 0⟩, none) with h | h
  · rw [h]
    simp [palette]
  · exact h

theorem pixelStep_data (w h x y : ℕ) (st : DitherState) :
    (pixelStep w h x y st).data = Function.update st.data (y * w + x)
      { st.data (y * w + x) with
        r := (nearestColor (effAt w x y st).1 (effAt w x y st).2.1 (effAt w x y st).2.2).r
        g := (nearestColor (effAt w x y st).1 (effAt w x y st).2.1 (effAt w x y st).2.2).g
        b := (nearestColor (effAt w x y st).1 (effAt w x y st).2.1
          (effAt w x y st).2.2).b } := rfl

theorem rowEnd_data (h y : ℕ) (st : DitherState) : (rowEnd h y st).data = st.data := by
  unfold rowEnd
  split <;> rfl

theorem idx_inj (w x x' y y' : ℕ) (hx : x < w) (hx' : x' < w)
    (h : y * w + x = y' * w + x') : y = y' ∧ x = x' := by
  have hw : 0 < w := lt_of_le_of_lt (Nat.zero_le x) hx
  have h1 : (y * w + x) / w = y := by
    rw [Nat.mul_comm y w, Nat.mul_add_div hw, Nat.div_eq_of_lt hx, Nat.add_zero]
  have h2 : (y' * w + x') / w = y' := by
    rw [Nat.mul_comm y' w, Nat.mul_add_div hw, Nat.div_eq_of_lt hx', Nat.add_zero]
  have hy : y = y' := by rw [← h1, ← h2, h]
  subst hy
  exact ⟨rfl, by omega⟩

theorem rowFold_data_eq_or (w h y : ℕ) (xs : List ℕ) (st : DitherState) (i : ℕ) :
    ((xs.foldl (fun s x => pixelStep w h x y s) st).data i = st.data i) ∨
      ∃ x ∈ xs, i = y * w + x := by
  induction xs generalizing st with
  | nil => exact Or.inl rfl
  | cons x0 rest ih =>
    simp only [List.foldl_cons]
    rcases ih (pixelStep w h x0 y st) with heq | ⟨x, hx, hi⟩
    · rw [heq, pixelStep_data]
      by_cases hi : i = y * w + x0
      · exact Or.inr ⟨x0, by simp, hi⟩
      · rw [Function.update_noteq hi]
        exact Or.inl rfl
    · exact Or.inr ⟨x, by simp [hx], hi⟩

theorem pixelStep_alpha (w h x y : ℕ) (st : DitherState) (i : ℕ) :
    ((pixelStep w h x y st).data i).a = (st.data i).a := by
  rw [pixelStep_data]
  by_cases hi : i = y * w + x
  · subst hi
    rw [Function.update_same]
  · rw [Function.update_noteq hi]

theorem rowFold_alpha (w h y : ℕ) (xs : List ℕ) (st : DitherState) (i : ℕ) :
    (((xs.foldl (fun s x => pixelStep w h x y s) st).data i).a) = ((st.data i).a) := by
  induction xs generalizing st with
  | nil => rfl
  | cons x0 rest ih =>
    simp only [List.foldl_cons]
    rw [ih (pixelStep w h x0 y st), pixelStep_alpha]

theorem rowsFold_alpha (w h : ℕ) (ys : List ℕ) (st : DitherState) (i : ℕ) :
    (((ys.foldl (fun s y => ditherRow w h y s) st).data i).a) = ((st.data i).a) := by
  induction ys generalizing st with
  | nil => rfl
  | cons y0 rest ih =>
    simp only [List.foldl_cons]
    rw [ih (ditherRow w h y0 st)]
    unfold ditherRow
    rw [rowEnd_data, rowFold_alpha]

theorem rowFold_pal (w h y : ℕ) (xs : List ℕ) (st : DitherState) (x : ℕ)
    (hx : x ∈ xs) (hall : ∀ x' ∈ xs, x' < w) :
    pxColor ((xs.foldl (fun s x => pixelStep w h x y s) st).data (y * w + x)) ∈
      palette := by
  induction xs generalizing st with
  | nil => cases hx
  | cons x0 rest ih =>
    simp only [List.foldl_cons]
    by_cases hxr : x ∈ rest
    · exact ih (pixelStep w h x0 y st) hxr (fun x' h' => hall x' (List.mem_cons_of_mem _ h'))
    · have hxx0 : x = x0 := by
        rcases List.mem_cons.mp hx with h | h
        · exact h
        · exact absurd h hxr
      subst hxx0
      rcases rowFold_data_eq_or w h y rest (pixelStep w h x y st) (y * w + x) with
        heq | ⟨x', hx', hi⟩
      · rw [heq, pixelStep_data, Function.update_same]
        have hpx : pxColor
            { st.data (y * w + x) with
              r := (nearestColor (effAt w x y st).1 (effAt w x y st).2.1
                (effAt w x y st).2.2).r
              g := (nearestColor (effAt w x y st).1 (effAt w x y st).2.1
                (effAt w x y st).2.2).g
              b := (nearestColor (effAt w x y st).1 (effAt w x y st).2.1
                (effAt w x y st).2.2).b } =
            nearestColor (effAt w x y st).1 (effAt w x y st).2.1 (effAt w x y st).2.2 := rfl
        rw [hpx]
        exact nearestColor_mem _ _ _
      · have hx'w : x' < w := hall x' (List.mem_cons_of_mem _ hx')
        have := (idx_inj w x x' y y (hall x (List.mem_cons_self x rest)) hx'w hi).2
        exact absurd (this ▸ hx') hxr

theorem rowsFold_data_eq_or (w h : ℕ) (ys : List ℕ) (st : DitherState) (i : ℕ) :
    ((ys.foldl (fun s y => ditherRow w h y s) st).data i = st.data i) ∨
      ∃ y ∈ ys, ∃ x, x < w ∧ i = y * w + x := by
  induction ys generalizing st with
  | nil => exact Or.inl rfl
  | cons y0 rest ih =>
    simp only [List.foldl_cons]
    rcases ih (ditherRow w h y0 st) with heq | ⟨y', hy', x, hxw, hi⟩
    · rw [heq]
      unfold ditherRow
      rw [rowEnd_data]
      rcases rowFold_data_eq_or w h y0 (List.range w) st i with heq2 | ⟨x, hx, hi⟩
      · exact Or.inl heq2
      · exact Or.inr ⟨y0, by simp, x, List.mem_range.mp hx, hi⟩
    · exact Or.inr ⟨y', by simp [hy'], x, hxw, hi⟩

theorem rowsFold_pal (w h : ℕ) (ys : List ℕ) (st : DitherState) (x y : ℕ)
    (hy : y ∈ ys) (hxw : x < w) :
    pxColor ((ys.foldl (fun s y => ditherRow w h y s) st).data (y * w + x)) ∈
      palette := by
  induction ys generalizing st with
  | nil => cases hy
  | cons y0 rest ih =>
    simp only [List.foldl_cons]
    by_cases hyr : y ∈ rest
    · exact ih (ditherRow w h y0 st) hyr
    · have hyy0 : y = y0 := by
        rcases List.mem_cons.mp hy with h | h
        · exact h
        · exact absurd h hyr
      subst hyy0
      rcases rowsFold_data_eq_or w h rest (ditherRow w h y st) (y * w + x) with
        heq | ⟨y', hy', x', hx'w, hi⟩
      · rw [heq]
        unfold ditherRow
        rw [rowEnd_data]
        exact rowFold_pal w h y (List.range w) st x (List.mem_range.mpr hxw)
          (fun x' h' => List.mem_range.mp h')
      · have := (idx_inj w x x' y y' hxw hx'w hi).1
        exact absurd (this ▸ hy') hyr

/-- C10: for every input image and every pixel coordinate, the
quantizer writes exactly one of the four palette colors
(0,0,0), (255,255,255), (200,0,0), (220,180,0) into the output
pixel's RGB channels, and the alpha channel of every index is left
untouched. -/
theorem C10_palette_output (w h x y : ℕ) (data : ℕ → Px) (hx : x < w) (hy : y < h) :
    pxColor (applyFourColorDither w h data (y * w + x)) ∈ palette ∧
      ∀ i, (applyFourColorDither w h data i).a = (data i).a := by
  constructor
  · unfold applyFourColorDither ditherAll
    exact rowsFold_pal w h (List.range h) _ x y (List.mem_range.mpr hy) hx
  · intro i
    unfold applyFourColorDither ditherAll
    exact rowsFold_alpha w h (List.range h) _ i

theorem C10_palette_output_witness :
    (0 : ℕ) < 1 ∧
      (pxColor (applyFourColorDither 1 1 (fun _ => ⟨100, 100, 100, 255⟩) (0 * 1 + 0)) ∈
          palette ∧
        ∀ i, (applyFourColorDither 1 1 (fun _ => ⟨100, 100, 100, 255⟩) i).a =
          ((fun _ => (⟨100, 100, 100, 255⟩ : Px)) i).a) :=
  ⟨by decide,
    C10_palette_output 1 1 0 0 (fun _ => ⟨100, 100, 100, 255⟩) (by decide) (by decide)⟩

theorem nearest_c0 : nearestColor 0 0 0 = ⟨0, 0, 0⟩ := by
  simp only [nearestColor, palette, List.foldl]
  norm_num

theorem nearest_c1 : nearestColor 255 255 255 = ⟨255, 255, 255⟩ := by
  simp only [nearestColor, palette, List.foldl]
  norm_num

theorem nearest_c2 : nearestColor 200 0 0 = ⟨200, 0, 0⟩ := by
  simp only [nearestColor, palette, List.foldl]
  norm_num

theorem nearest_c3 : nearestColor 220 180 0 = ⟨220, 180, 0⟩ := by
  simp only [nearestColor, palette, List.foldl]
  norm_num

theorem px_eta (p : Px) : ({ p with r := p.r, g := p.g, b := p.b } : Px) = p := by
  cases p
  rfl

theorem upd_zero (i : ℕ) : upd zeroRow i 0 = zeroRow := by
  unfold upd zeroRow
  rw [add_zero]
  exact Function.update_eq_self i _

theorem diffuseChan_zero (w h x y : ℕ) :
    diffuseChan w h x y 0 zeroRow zeroRow = (zeroRow, zeroRow) := by
  unfold diffuseChan
  split_ifs <;> simp [upd_zero]

theorem pixelStep_fix_aux (w h x y : ℕ) (data : ℕ → Px)
    (hc1 : clamp255 ((data (y * w + x)).r) = (data (y * w + x)).r)
    (hc2 : clamp255 ((data (y * w + x)).g) = (data (y * w + x)).g)
    (hc3 : clamp255 ((data (y * w + x)).b) = (data (y * w + x)).b)
    (hnc : nearestColor (data (y * w + x)).r (data (y * w + x)).g (data (y * w + x)).b =
      ⟨(data (y * w + x)).r, (data (y * w + x)).g, (data (y * w + x)).b⟩) :
    pixelStep w h x y ⟨data, zeroRow, zeroRow, zeroRow, zeroRow, zeroRow, zeroRow⟩ =
      ⟨data, zeroRow, zeroRow, zeroRow, zeroRow, zeroRow, zeroRow⟩ := by
  have heff : effAt w x y ⟨data, zeroRow, zeroRow, zeroRow, zeroRow, zeroRow, zeroRow⟩ =
      ((data (y * w + x)).r, (data (y * w + x)).g, (data (y * w + x)).b) := by
    unfold effAt zeroRow
    simp only [add_zero]
    rw [hc1, hc2, hc3]
  have hres : residAt w x y ⟨data, zeroRow, zeroRow, zeroRow, zeroRow, zeroRow, zeroRow⟩ =
      (0, 0, 0) := by
    unfold residAt
    rw [heff]
    simp only
    rw [hnc]
    simp
  unfold pixelStep
  rw [heff, hres]
  simp only
  rw [hnc]
  simp only [diffuseChan_zero]
  rw [px_eta, Function.update_eq_self]

theorem pixelStep_fix (w h x y : ℕ) (data : ℕ → Px)
    (hpal : pxColor (data (y * w + x)) ∈ palette) :
    pixelStep w h x y ⟨data, zeroRow, zeroRow, zeroRow, zeroRow, zeroRow, zeroRow⟩ =
      ⟨data, zeroRow, zeroRow, zeroRow, zeroRow, zeroRow, zeroRow⟩ := by
  simp only [pxColor, palette, List.mem_cons, List.not_mem_nil, or_false,
    PColor.mk.injEq] at hpal
  obtain ⟨h1, h2, h3⟩ | ⟨h1, h2, h3⟩ | ⟨h1, h2, h3⟩ | ⟨h1, h2, h3⟩ := hpal
  · exact pixelStep_fix_aux w h x y data (by rw [h1]; decide) (by rw [h2]; decide)
      (by rw [h3]; decide) (by rw [h1, h2, h3]; exact nearest_c0)
  · exact pixelStep_fix_aux w h x y data (by rw [h1]; decide) (by rw [h2]; decide)
      (by rw [h3]; decide) (by rw [h1, h2, h3]; exact nearest_c1)
  · exact pixelStep_fix_aux w h x y data (by rw [h1]; decide) (by rw [h2]; decide)
      (by rw [h3]; decide) (by rw [h1, h2, h3]; exact nearest_c2)
  · exact pixelStep_fix_aux w h x y data (by rw [h1]; decide) (by rw [h2]; decide)
      (by rw [h3]; decide) (by rw [h1, h2, h3]; exact nearest_c3)

theorem rowFold_fix (w h y : ℕ) (data : ℕ → Px) (xs : List ℕ)
    (hpal : ∀ x ∈ xs, pxColor (data (y * w + x)) ∈ palette) :
    xs.foldl (fun s x => pixelStep w h x y s)
        ⟨data, zeroRow, zeroRow, zeroRow, zeroRow, zeroRow, zeroRow⟩ =
      ⟨data, zeroRow, zeroRow, zeroRow, zeroRow, zeroRow, zeroRow⟩ := by
  induction xs with
  | nil => rfl
  | cons x0 rest ih =>
    simp only [List.foldl_cons]
    rw [pixelStep_fix w h x0 y data (hpal x0 (List.mem_cons_self x0 rest))]
    exact ih (fun x hx => hpal x (List.mem_cons_of_mem x0 hx))

theorem rowEnd_fix (h y : ℕ) (data : ℕ → Px) :
    rowEnd h y ⟨data, zeroRow, zeroRow, zeroRow, zeroRow, zeroRow, zeroRow⟩ =
      ⟨data, zeroRow, zeroRow, zeroRow, zeroRow, zeroRow, zeroRow⟩ := by
  unfold rowEnd
  split <;> rfl

theorem rowsFold_fix (w h : ℕ) (data : ℕ → Px) (ys : List ℕ)
    (hpal : ∀ y ∈ ys, ∀ x < w, pxColor (data (y * w + x)) ∈ palette) :
    ys.foldl (fun s y => ditherRow w h y s)
        ⟨data, zeroRow, zeroRow, zeroRow, zeroRow, zeroRow, zeroRow⟩ =
      ⟨data, zeroRow, zeroRow, zeroRow, zeroRow, zeroRow, zeroRow⟩ := by
  induction ys with
  | nil => rfl
  | cons y0 rest ih =>
    simp only [List.foldl_cons]
    have hrow : ditherRow w h y0 ⟨data, zeroRow, zeroRow, zeroRow, zeroRow, zeroRow,
        zeroRow⟩ = ⟨data, zeroRow, zeroRow, zeroRow, zeroRow, zeroRow, zeroRow⟩ := by
      unfold ditherRow
      rw [rowFold_fix w h y0 data (List.range w)
        (fun x hx => hpal y0 (List.mem_cons_self y0 rest) x (List.mem_range.mp hx))]
      exact rowEnd_fix h y0 data
    rw [hrow]
    exact ih (fun y hy => hpal y (List.mem_cons_of_mem y0 hy))

/-- C5: re-quantizing an image every pixel of which already carries
one of the four palette colors reproduces the image exactly, and all
six error accumulator rows are identically zero at the end of the
pass (each step's residual is zero, so zero error propagates
throughout). -/
theorem C5_palette_fixpoint (w h : ℕ) (data : ℕ → Px)
    (hpal : ∀ x < w, ∀ y < h, pxColor (data (y * w + x)) ∈ palette) :
    (∀ i, applyFourColorDither w h data i = data i) ∧
      (ditherAll w h data).errR = zeroRow ∧ (ditherAll w h data).errG = zeroRow ∧
      (ditherAll w h data).errB = zeroRow ∧ (ditherAll w h data).nextErrR = zeroRow ∧
      (ditherAll w h data).nextErrG = zeroRow ∧
      (ditherAll w h data).nextErrB = zeroRow := by
  have hall : ditherAll w h data =
      ⟨data, zeroRow, zeroRow, zeroRow, zeroRow, zeroRow, zeroRow⟩ := by
    unfold ditherAll
    exact rowsFold_fix w h data (List.range h)
      (fun y hy x hx => hpal x hx y (List.mem_range.mp hy))
  refine ⟨?_, ?_, ?_, ?_, ?_, ?_, ?_⟩ <;> simp [applyFourColorDither, hall]

theorem C5_palette_fixpoint_witness :
    (∀ x < 1, ∀ y < 1, pxColor ((fun _ => (⟨200, 0, 0, 255⟩ : Px)) (y * 1 + x)) ∈
        palette) ∧
      ∀ i, applyFourColorDither 1 1 (fun _ => ⟨200, 0, 0, 255⟩) i =
        (fun _ => (⟨200, 0, 0, 255⟩ : Px)) i :=
  ⟨by decide,
    (C5_palette_fixpoint 1 1 (fun _ => ⟨200, 0, 0, 255⟩) (by decide)).1⟩

end PhotoDaocker
